import Mathlib

/-!
Shallow embedding of the Pareto aggregation / classification core of
`src/app.py` (PVC Pipe Production Problem Analyzer).

The embedded fragments are:
* the `problem_data` entry records built on lines 73-79;
* the Pareto aggregation pipeline of lines 91-96 (`groupby("Problem").sum`,
  `Count > 0` filter, `sort_values(by="Count", ascending=False)`,
  `Cumulative % = cumsum / sum * 100`);
* the vital-few scan and bar-colour assignment of lines 98-106;
* the top-N selection of lines 165-167;
* the static problem-to-machine-part mapping (lines 31-47) and its two
  lookup sites (line 131 with fallback `["Unmapped/Other"]`, line 186 with
  fallback `["Not specifically mapped"]`);
* the heatmap entry expansion and pivot of lines 125-145.

Counts are modelled as `Nat`; the Streamlit count widget (line 69) is
declared with `min_value=1, step=1`, so every count the program ever
stores is a positive integer, and theorems that rely on this input-domain
fact carry it as an explicit hypothesis.  The `Cumulative %` column is a
float64 column in pandas; it is modelled with exact rationals.  For the
integer counts reachable here the two agree on the facts proved below
(in IEEE double arithmetic `s/s` is exactly `1.0`, so the final row is
exactly `100.0`, and division followed by `*100` is monotone).
-/

/-- One logged problem occurrence, as appended to `problem_data`
(`src/app.py` lines 73-79).  Line 75 strips the problem name before
storing it and line 73 drops blank names, so stored names equal their own
trim; line 69's widget makes every stored `count` at least 1.  Theorems
state these domain facts as hypotheses where they matter. -/
structure ProblemEntry where
  problem : String
  count : Nat
  machineNo : String
deriving Repr, DecidableEq

/-- Static machine-part column list for the heatmap (lines 24-27). -/
def machine_parts_list_for_heatmap : List String :=
  ["Feeding system", "Extruder head", "Die/mandrel", "Cooling system",
   "Haul Off unit", "Cutting unit", "Belling Unit", "Unmapped/Other"]

/-- Static problem-to-machine-part mapping (lines 31-47). -/
def default_problem_to_part_mapping : List (String × List String) :=
  [("Uneven wall thickness", ["Die/mandrel", "Extruder head"]),
   ("Rough surface (internal/external)", ["Die/mandrel", "Cooling system", "Extruder head"]),
   ("Cracks or longitudinal splits", ["Cooling system", "Haul Off unit", "Die/mandrel"]),
   ("Pipe warping or bending (ovality)", ["Cooling system", "Die/mandrel", "Haul Off unit"]),
   ("Color inconsistency / streaks", ["Feeding system", "Extruder head"]),
   ("Bubbles, voids, or blisters", ["Extruder head", "Die/mandrel", "Feeding system"]),
   ("Underfilled / short pipe", ["Extruder head", "Feeding system"]),
   ("Burning / degradation marks", ["Extruder head", "Die/mandrel"]),
   ("Poor gelation / unmelted particles", ["Extruder head", "Feeding system"]),
   ("Contamination (black specks)", ["Feeding system"]),
   ("Die lines / flow marks", ["Die/mandrel"]),
   ("Excessive flash or burrs", ["Die/mandrel", "Cutting unit"]),
   ("Low impact strength", ["Extruder head", "Cooling system"]),
   ("Dimensional instability", ["Die/mandrel", "Cooling system", "Haul Off unit"]),
   ("Bell end deformation / defects", ["Belling Unit", "Cutting unit"])]

/-- Summed count of all entries sharing `name`: one group of line 91's
`df_raw.groupby("Problem", as_index=False)["Count"].sum()`. -/
def groupTotal (l : List ProblemEntry) (name : String) : Nat :=
  ((l.filter (fun e => e.problem == name)).map (fun e => e.count)).sum

/-- Line 91: the grouped frame, one `(Problem, Count)` row per distinct
name.  `List.dedup` keeps one occurrence of each name; pandas emits group
keys in ascending key order and line 92 then re-sorts them with an
unstable quicksort, so the source fixes no relative order for groups with
equal counts and no theorem below depends on one. -/
def df_pareto_grouped (l : List ProblemEntry) : List (String × Nat) :=
  ((l.map (fun e => e.problem)).dedup).map (fun n => (n, groupTotal l n))

/-- The descending-count comparison behind line 92's
`sort_values(by="Count", ascending=False)`. -/
def countGE (a b : String × Nat) : Prop := b.2 ≤ a.2

instance : DecidableRel countGE :=
  fun a b => inferInstanceAs (Decidable (b.2 ≤ a.2))

instance : IsTotal (String × Nat) countGE :=
  ⟨fun a b => Nat.le_total b.2 a.2⟩

instance : IsTrans (String × Nat) countGE :=
  ⟨fun _ _ _ hab hbc => Nat.le_trans hbc hab⟩

/-- Line 92: drop groups whose summed count is not `> 0`, then sort by
count descending. -/
def df_pareto_sorted (l : List ProblemEntry) : List (String × Nat) :=
  List.insertionSort countGE ((df_pareto_grouped l).filter (fun p => decide (0 < p.2)))

/-- One row of the final `df_pareto` frame after line 96 added the
`Cumulative %` column. -/
structure ParetoRow where
  problem : String
  count : Nat
  cumulativePercent : ℚ
deriving Repr, DecidableEq

/-- Line 96: `Cumulative % = Count.cumsum() / Count.sum() * 100`, with
`acc` the running sum of the counts already passed. -/
def cumRows (total : Nat) (acc : Nat) : List (String × Nat) → List ParetoRow
  | [] => []
  | p :: rest =>
      ⟨p.1, p.2, ((acc + p.2 : Nat) : ℚ) / (total : ℚ) * 100⟩ :: cumRows total (acc + p.2) rest

/-- Line 96's divisor `df_pareto["Count"].sum()`. -/
def grandTotal (l : List ProblemEntry) : Nat :=
  ((df_pareto_sorted l).map (fun p => p.2)).sum

/-- The final `df_pareto` frame: sorted positive groups annotated with
their cumulative percentage (lines 91-96). -/
def df_pareto (l : List ProblemEntry) : List ParetoRow :=
  cumRows (grandTotal l) 0 (df_pareto_sorted l)

/-- The scan of lines 100-102, returning the 0-based index of the first
cumulative percentage strictly above 80, if any. -/
def first_over_80_aux : List ℚ → Option Nat
  | [] => none
  | c :: rest => if 80 < c then some 0 else (first_over_80_aux rest).map (fun i => i + 1)

/-- Lines 100-102: `first_over_80_idx`, with the Python `-1` sentinel for
"no row exceeds 80". -/
def first_over_80_idx (cums : List ℚ) : Int :=
  match first_over_80_aux cums with
  | some i => (i : Int)
  | none => -1

/-- Line 98. -/
def default_color : String := "deepskyblue"

/-- Line 98. -/
def highlight_color : String := "crimson"

/-- Lines 99-106: bars `0..first_over_80_idx` are highlighted when the
scan found an index; otherwise every bar is highlighted. -/
def bar_colors (cums : List ℚ) : List String :=
  if first_over_80_idx cums = -1 then
    List.replicate cums.length highlight_color
  else
    (List.range cums.length).map
      (fun k => if (k : Int) ≤ first_over_80_idx cums then highlight_color else default_color)

/-- Line 165: `min(len(df_pareto), 3)`. -/
def num_top_problems_to_analyze (rows : List ParetoRow) : Nat :=
  min rows.length 3

/-- Line 167: `df_pareto.head(num_top_problems_to_analyze)["Problem"].tolist()`. -/
def top_problem_names (rows : List ParetoRow) : List String :=
  (rows.take (num_top_problems_to_analyze rows)).map (fun r => r.problem)

/-- `default_problem_to_part_mapping.get(name, dflt)`. -/
def lookupParts (name : String) (dflt : List String) : List String :=
  match default_problem_to_part_mapping.find? (fun p => p.1 == name) with
  | some p => p.2
  | none => dflt

/-- Line 131 (heatmap path): fallback `["Unmapped/Other"]`. -/
def mapped_parts (name : String) : List String :=
  lookupParts name ["Unmapped/Other"]

/-- Line 186 (AI-prompt path): fallback `["Not specifically mapped"]`. -/
def likely_machine_parts (name : String) : List String :=
  lookupParts name ["Not specifically mapped"]

/-- Lines 125-133: one `(Problem, Machine Part, Count)` record per raw
entry and mapped part; each part of a multi-part mapping receives the
entry's full count. -/
def heatmap_entries (df_raw : List ProblemEntry) : List (String × String × Nat) :=
  df_raw.flatMap (fun e => (mapped_parts e.problem).map (fun part => (e.problem, part, e.count)))

/-- Line 140's pivot cell: `groupby(["Problem", "Machine Part"]).sum` with
`fill_value=0` (and line 143's reindex filling absent cells with 0). -/
def heatmap_cell (df_raw : List ProblemEntry) (p part : String) : Nat :=
  (((heatmap_entries df_raw).filter (fun t => t.1 == p && t.2.1 == part)).map
    (fun t => t.2.2)).sum

/-- The sum of one pivot row across the reindexed columns of line 143. -/
def heatmap_row_sum (df_raw : List ProblemEntry) (p : String) : Nat :=
  (machine_parts_list_for_heatmap.map (fun part => heatmap_cell df_raw p part)).sum

/-- The user-visible outcome of the Pareto section of an analysis run
(lines 82-96): the `st.warning` of line 84, the `st.error` of line 94, or
a rendered chart over the final frame. -/
inductive ParetoOutcome where
  | warning (msg : String)
  | error (msg : String)
  | chart (rows : List ParetoRow)
deriving Repr, DecidableEq

/-- Lines 82-96: empty `problem_data` warns and stops; an empty filtered
frame raises the line-94 error; otherwise the chart is rendered from the
annotated frame. -/
def analyzePareto (problem_data : List ProblemEntry) : ParetoOutcome :=
  if problem_data.isEmpty then
    ParetoOutcome.warning "Please enter at least one problem entry."
  else if (df_pareto_sorted problem_data).isEmpty then
    ParetoOutcome.error "No problems with valid counts for Pareto analysis."
  else
    ParetoOutcome.chart (df_pareto problem_data)

/-- Scenario A's input rows (counts widget gives each a positive count). -/
def exampleEntriesA : List ProblemEntry :=
  [⟨"Cracks", 5, "N/A"⟩, ⟨"Cracks", 3, "N/A"⟩, ⟨"Warping", 2, "N/A"⟩]

/-- Scenario A evaluated: grouping merges the two Cracks entries, the
groups rank Cracks first, and the cumulative percentages are 80 and 100. -/
lemma df_pareto_exampleA :
    df_pareto exampleEntriesA = [⟨"Cracks", 8, 80⟩, ⟨"Warping", 2, 100⟩] := by
  simp [df_pareto, cumRows,
    show df_pareto_sorted exampleEntriesA = [("Cracks", 8), ("Warping", 2)] from by decide,
    show grandTotal exampleEntriesA = 10 from by decide,
    show groupTotal exampleEntriesA "Cracks" = 8 from by decide,
    show groupTotal exampleEntriesA "Warping" = 2 from by decide]
  norm_num

/-! ### General lemmas about grouping and the grouped frame -/

lemma groupTotal_cons (e : ProblemEntry) (t : List ProblemEntry) (name : String) :
    groupTotal (e :: t) name =
      (if e.problem = name then e.count else 0) + groupTotal t name := by
  by_cases h : e.problem = name
  · simp [groupTotal, List.filter_cons, h]
  · simp [groupTotal, List.filter_cons, h]

/-- Summing a function that vanishes away from `a` over a duplicate-free
list containing `a` yields the value at `a`. -/
lemma sum_map_single (names : List String) (hnd : names.Nodup) (a : String)
    (ha : a ∈ names) (f : String → Nat) (hf : ∀ n ∈ names, n ≠ a → f n = 0) :
    (names.map f).sum = f a := by
  induction names with
  | nil => cases ha
  | cons n ns ih =>
    have hnd' := (List.nodup_cons.mp hnd).2
    have hn : n ∉ ns := (List.nodup_cons.mp hnd).1
    rcases List.mem_cons.mp ha with h | h
    · subst h
      have hzero : (ns.map f).sum = 0 := by
        apply List.sum_eq_zero
        intro x hx
        rcases List.mem_map.mp hx with ⟨m, hm, rfl⟩
        exact hf m (List.mem_cons_of_mem _ hm) (by rintro rfl; exact hn hm)
      simp [hzero]
    · have hne : n ≠ a := by rintro rfl; exact hn h
      have hfn : f n = 0 := hf n (List.mem_cons_self _ _) hne
      have := ih hnd' h (fun m hm hma => hf m (List.mem_cons_of_mem _ hm) hma)
      simp [hfn, this]

/-- Partitioning the raw counts by name: summing the per-name group
totals over any duplicate-free list of names covering the input gives the
total of all raw counts. -/
lemma sum_map_groupTotal :
    ∀ (l : List ProblemEntry) (names : List String), names.Nodup →
      (∀ e ∈ l, e.problem ∈ names) →
      (names.map (fun n => groupTotal l n)).sum = (l.map (fun e => e.count)).sum := by
  intro l
  induction l with
  | nil =>
    intro names _ _
    simp [groupTotal]
  | cons e t ih =>
    intro names hnd hcov
    have hcovt : ∀ x ∈ t, x.problem ∈ names :=
      fun x hx => hcov x (List.mem_cons_of_mem _ hx)
    have he : e.problem ∈ names := hcov e (List.mem_cons_self _ _)
    calc (names.map fun n => groupTotal (e :: t) n).sum
        = (names.map fun n =>
            (if e.problem = n then e.count else 0) + groupTotal t n).sum := by
          simp only [groupTotal_cons]
      _ = (names.map fun n => if e.problem = n then e.count else 0).sum +
            (names.map fun n => groupTotal t n).sum := List.sum_map_add
      _ = e.count + (t.map fun x => x.count).sum := by
          rw [sum_map_single names hnd e.problem he _
            (fun n _ hna => if_neg (fun hh => hna hh.symm)), if_pos rfl,
            ih names hnd hcovt]
      _ = ((e :: t).map fun x => x.count).sum := by simp

lemma df_pareto_grouped_map_fst (l : List ProblemEntry) :
    (df_pareto_grouped l).map Prod.fst = (l.map (fun e => e.problem)).dedup := by
  rw [df_pareto_grouped, List.map_map]
  exact List.map_id _

lemma df_pareto_grouped_sum (l : List ProblemEntry) :
    ((df_pareto_grouped l).map (fun p => p.2)).sum = (l.map (fun e => e.count)).sum := by
  simp only [df_pareto_grouped, List.map_map]
  exact sum_map_groupTotal l _ (List.nodup_dedup _)
    (fun e he => List.mem_dedup.mpr (List.mem_map_of_mem _ he))

/-- Every name occurring in the input has a strictly positive group total
when every input count is strictly positive. -/
lemma groupTotal_pos (l : List ProblemEntry) (hpos : ∀ e ∈ l, 0 < e.count)
    (n : String) (hn : n ∈ l.map (fun e => e.problem)) : 0 < groupTotal l n := by
  rcases List.mem_map.mp hn with ⟨e, he, rfl⟩
  have hmem : e.count ∈ (l.filter (fun x => x.problem == e.problem)).map (fun x => x.count) :=
    List.mem_map_of_mem _ (List.mem_filter.mpr ⟨he, by simp⟩)
  exact lt_of_lt_of_le (hpos e he) (List.le_sum_of_mem hmem)

lemma df_pareto_grouped_pos (l : List ProblemEntry) (hpos : ∀ e ∈ l, 0 < e.count) :
    ∀ p ∈ df_pareto_grouped l, 0 < p.2 := by
  intro p hp
  rcases List.mem_map.mp hp with ⟨n, hn, rfl⟩
  exact groupTotal_pos l hpos n (List.mem_dedup.mp hn)

/-- With positive input counts, line 92's `Count > 0` filter drops
nothing. -/
lemma filter_pos_eq (l : List ProblemEntry) (hpos : ∀ e ∈ l, 0 < e.count) :
    (df_pareto_grouped l).filter (fun p => decide (0 < p.2)) = df_pareto_grouped l := by
  apply List.filter_eq_self.mpr
  intro p hp
  simpa using df_pareto_grouped_pos l hpos p hp

/-- With positive input counts the sorted frame is a permutation of the
grouped frame. -/
lemma df_pareto_sorted_perm (l : List ProblemEntry) (hpos : ∀ e ∈ l, 0 < e.count) :
    (df_pareto_sorted l).Perm (df_pareto_grouped l) := by
  rw [df_pareto_sorted, filter_pos_eq l hpos]
  exact List.perm_insertionSort countGE _

/-! ### Structural lemmas about the cumulative-percentage annotation -/

lemma cumRows_map_pair (total acc : Nat) (rows : List (String × Nat)) :
    (cumRows total acc rows).map (fun r => (r.problem, r.count)) = rows := by
  induction rows generalizing acc with
  | nil => rfl
  | cons p rest ih => simp [cumRows, ih]

lemma cumRows_length (total acc : Nat) (rows : List (String × Nat)) :
    (cumRows total acc rows).length = rows.length := by
  induction rows generalizing acc with
  | nil => rfl
  | cons p rest ih => simp [cumRows, ih]

lemma cumRows_map_problem (total acc : Nat) (rows : List (String × Nat)) :
    (cumRows total acc rows).map (fun r => r.problem) = rows.map Prod.fst := by
  induction rows generalizing acc with
  | nil => rfl
  | cons p rest ih => simp [cumRows, ih]

lemma cumRows_map_count (total acc : Nat) (rows : List (String × Nat)) :
    (cumRows total acc rows).map (fun r => r.count) = rows.map (fun p => p.2) := by
  induction rows generalizing acc with
  | nil => rfl
  | cons p rest ih => simp [cumRows, ih]

/-- **C1.** For a non-empty input whose entries carry the widget-enforced
positive counts, the aggregated frame has exactly one row per distinct
(case-sensitive) stored problem name - its name column is a permutation
of the duplicate-free list of input names - and the row totals sum to the
sum of the strictly positive input counts.  Stored names are already
whitespace-trimmed (line 75 appends `problem_name.strip()`), so the
distinct stored names are exactly the claim's distinct trimmed names. -/
theorem aggregator_unique_rows_and_total (l : List ProblemEntry)
    (_hne : l ≠ []) (hpos : ∀ e ∈ l, 0 < e.count) :
    ((df_pareto l).map (fun r => r.problem)).Perm
      ((l.map (fun e => e.problem)).dedup) ∧
    ((df_pareto l).map (fun r => r.count)).sum =
      ((l.filter (fun e => decide (0 < e.count))).map (fun e => e.count)).sum := by
  constructor
  · rw [df_pareto, cumRows_map_problem, ← df_pareto_grouped_map_fst]
    exact (df_pareto_sorted_perm l hpos).map Prod.fst
  · rw [df_pareto, cumRows_map_count,
      ((df_pareto_sorted_perm l hpos).map (fun p => p.2)).sum_eq,
      df_pareto_grouped_sum,
      List.filter_eq_self.mpr (fun e he => by simpa using hpos e he)]

/-- **C1, witness.** The aggregator property applied to scenario A's
concrete input. -/
theorem aggregator_unique_rows_and_total_witness :
    ((df_pareto exampleEntriesA).map (fun r => r.problem)).Perm
      ((exampleEntriesA.map (fun e => e.problem)).dedup) ∧
    ((df_pareto exampleEntriesA).map (fun r => r.count)).sum =
      ((exampleEntriesA.filter (fun e => decide (0 < e.count))).map
        (fun e => e.count)).sum :=
  aggregator_unique_rows_and_total exampleEntriesA (by decide) (by decide)

/-! ### Sortedness of the ranked frame (C4) -/

lemma df_pareto_sorted_sorted (l : List ProblemEntry) :
    List.Sorted countGE (df_pareto_sorted l) :=
  List.sorted_insertionSort countGE _

lemma df_pareto_pairwise_count (l : List ProblemEntry) :
    List.Pairwise (fun r s : ParetoRow => s.count ≤ r.count) (df_pareto l) := by
  have hs := df_pareto_sorted_sorted l
  rw [← cumRows_map_pair (grandTotal l) 0 (df_pareto_sorted l)] at hs
  exact List.pairwise_map.mp hs

/-- **C4.** The ranked frame is sorted by `totalCount` descending: each
row's count is at least the next row's count. -/
theorem aggregated_sorted_by_count_descending (l : List ProblemEntry) (i : Nat)
    (h : i + 1 < (df_pareto l).length) :
    ((df_pareto l).get ⟨i + 1, h⟩).count ≤
      ((df_pareto l).get ⟨i, Nat.lt_of_succ_lt h⟩).count :=
  List.pairwise_iff_get.mp (df_pareto_pairwise_count l)
    ⟨i, Nat.lt_of_succ_lt h⟩ ⟨i + 1, h⟩ (Nat.lt_succ_self i)

/-- **C4, witness.** Adjacent rows of scenario A's ranked frame are
descending (8 then 2). -/
theorem aggregated_sorted_by_count_descending_witness :
    ∃ h : 0 + 1 < (df_pareto exampleEntriesA).length,
      ((df_pareto exampleEntriesA).get ⟨0 + 1, h⟩).count ≤
        ((df_pareto exampleEntriesA).get ⟨0, Nat.lt_of_succ_lt h⟩).count := by
  have hlen : 0 + 1 < (df_pareto exampleEntriesA).length := by
    rw [df_pareto_exampleA]; decide
  exact ⟨hlen, aggregated_sorted_by_count_descending exampleEntriesA 0 hlen⟩

/-! ### Monotonicity of the cumulative percentage (C5) -/

lemma perc_mono (total a b : Nat) (hab : a ≤ b) :
    ((a : Nat) : ℚ) / (total : ℚ) * 100 ≤ ((b : Nat) : ℚ) / (total : ℚ) * 100 := by
  have h1 : ((a : Nat) : ℚ) ≤ ((b : Nat) : ℚ) := by exact_mod_cast hab
  have h2 : (0 : ℚ) ≤ ((total : Nat) : ℚ)⁻¹ := inv_nonneg.mpr (Nat.cast_nonneg total)
  rw [div_eq_mul_inv, div_eq_mul_inv]
  exact mul_le_mul_of_nonneg_right (mul_le_mul_of_nonneg_right h1 h2) (by norm_num)

lemma cumRows_chain (total : Nat) :
    ∀ (acc : Nat) (rows : List (String × Nat)),
      List.Chain' (fun a b : ParetoRow => a.cumulativePercent ≤ b.cumulativePercent)
        (cumRows total acc rows) := by
  intro acc rows
  induction rows generalizing acc with
  | nil => simp [cumRows]
  | cons p rest ih =>
    cases rest with
    | nil => simp [cumRows]
    | cons q rest2 =>
      rw [cumRows, cumRows]
      refine List.chain'_cons.mpr ⟨?_, ?_⟩
      · exact perc_mono total _ _ (Nat.le_add_right _ _)
      · have htail := ih (acc + p.2)
        rw [cumRows] at htail
        exact htail

/-- **C5.** The cumulative percentages of the ranked frame are
non-decreasing from the first row to the last, and every row kept for
ranking has a strictly positive count (zero-count groups were dropped by
the line-92 filter). -/
theorem cumulative_monotone_and_positive_counts (l : List ProblemEntry)
    (_hne : df_pareto l ≠ []) :
    (∀ i (h : i + 1 < (df_pareto l).length),
      ((df_pareto l).get ⟨i, Nat.lt_of_succ_lt h⟩).cumulativePercent ≤
        ((df_pareto l).get ⟨i + 1, h⟩).cumulativePercent) ∧
    (∀ r ∈ df_pareto l, 0 < r.count) := by
  constructor
  · intro i h
    have hc : List.Chain'
        (fun a b : ParetoRow => a.cumulativePercent ≤ b.cumulativePercent)
        (df_pareto l) := cumRows_chain (grandTotal l) 0 (df_pareto_sorted l)
    exact List.chain'_iff_get.mp hc i (by omega)
  · intro r hr
    have hmem : (r.problem, r.count) ∈ (df_pareto l).map (fun s => (s.problem, s.count)) :=
      List.mem_map_of_mem _ hr
    rw [df_pareto, cumRows_map_pair] at hmem
    have hmem2 : (r.problem, r.count) ∈
        (df_pareto_grouped l).filter (fun p => decide (0 < p.2)) := by
      rw [df_pareto_sorted] at hmem
      exact (List.mem_insertionSort countGE).mp hmem
    simpa using (List.mem_filter.mp hmem2).2

/-- **C5, witness.** Scenario A's ranked frame is non-empty, its
cumulative percentages rise (80 then 100) and its counts are positive. -/
theorem cumulative_monotone_and_positive_counts_witness :
    df_pareto exampleEntriesA ≠ [] ∧
    ((∀ i (h : i + 1 < (df_pareto exampleEntriesA).length),
      ((df_pareto exampleEntriesA).get ⟨i, Nat.lt_of_succ_lt h⟩).cumulativePercent ≤
        ((df_pareto exampleEntriesA).get ⟨i + 1, h⟩).cumulativePercent) ∧
    (∀ r ∈ df_pareto exampleEntriesA, 0 < r.count)) := by
  have hne : df_pareto exampleEntriesA ≠ [] := by
    rw [df_pareto_exampleA]; simp
  exact ⟨hne, cumulative_monotone_and_positive_counts exampleEntriesA hne⟩

/-! ### The final cumulative percentage (C3) -/

lemma cumRows_last_cum (total : Nat) :
    ∀ (acc : Nat) (rows : List (String × Nat)) (r : ParetoRow),
      (cumRows total acc rows).getLast? = some r →
      r.cumulativePercent =
        ((acc + (rows.map (fun q => q.2)).sum : Nat) : ℚ) / (total : ℚ) * 100 := by
  intro acc rows
  induction rows generalizing acc with
  | nil =>
    intro r h
    simp [cumRows] at h
  | cons p rest ih =>
    intro r h
    cases rest with
    | nil =>
      simp [cumRows] at h
      rw [← h]
      push_cast [List.map_cons, List.map_nil, List.sum_cons, List.sum_nil]
      ring
    | cons q rest2 =>
      rw [cumRows, cumRows, List.getLast?_cons_cons] at h
      have h' : (cumRows total (acc + p.2) (q :: rest2)).getLast? = some r := by
        rw [cumRows]; exact h
      rw [ih (acc + p.2) r h']
      have hnat : acc + p.2 + ((q :: rest2).map (fun t => t.2)).sum =
          acc + ((p :: q :: rest2).map (fun t => t.2)).sum := by
        simp [Nat.add_assoc]
      rw [hnat]

lemma df_pareto_sorted_pos (l : List ProblemEntry) :
    ∀ p ∈ df_pareto_sorted l, 0 < p.2 := by
  intro p hp
  have hmem : p ∈ (df_pareto_grouped l).filter (fun t => decide (0 < t.2)) := by
    rw [df_pareto_sorted] at hp
    exact (List.mem_insertionSort countGE).mp hp
  simpa using (List.mem_filter.mp hmem).2

/-- **C3.** Whenever the ranked frame is non-empty (it has a last row),
that last row's cumulative percentage is exactly 100.  In the modelled
exact arithmetic no clamping is needed: the final cumulative sum equals
the grand total, and `total / total * 100 = 100` (the source likewise
applies no clamp on line 96, and in IEEE doubles `s/s` is exactly 1.0). -/
theorem last_cumulative_percent_100 (l : List ProblemEntry) (r : ParetoRow)
    (h : (df_pareto l).getLast? = some r) : r.cumulativePercent = 100 := by
  have hne : df_pareto_sorted l ≠ [] := by
    intro hnil
    rw [df_pareto, hnil] at h
    simp [cumRows] at h
  have htot : 0 < grandTotal l := by
    obtain ⟨p, hp⟩ := List.exists_mem_of_ne_nil _ hne
    exact lt_of_lt_of_le (df_pareto_sorted_pos l p hp)
      (List.le_sum_of_mem (List.mem_map_of_mem _ hp))
  rw [cumRows_last_cum (grandTotal l) 0 (df_pareto_sorted l) r h, Nat.zero_add]
  have hS : ((df_pareto_sorted l).map (fun q => q.2)).sum = grandTotal l := rfl
  rw [hS, div_self (Nat.cast_ne_zero.mpr htot.ne'), one_mul]

/-- **C3, witness.** Scenario A's last row is Warping with cumulative
percentage exactly 100. -/
theorem last_cumulative_percent_100_witness :
    (df_pareto exampleEntriesA).getLast? = some ⟨"Warping", 2, 100⟩ ∧
    (⟨"Warping", 2, 100⟩ : ParetoRow).cumulativePercent = 100 := by
  have h : (df_pareto exampleEntriesA).getLast? = some ⟨"Warping", 2, 100⟩ := by
    rw [df_pareto_exampleA]
    simp
  exact ⟨h, last_cumulative_percent_100 exampleEntriesA _ h⟩

/-! ### The vital-few boundary scan (C2, C6) -/

lemma first_over_80_aux_spec :
    ∀ (cums : List ℚ) (k : Nat), first_over_80_aux cums = some k →
      ∃ h : k < cums.length, 80 < cums.get ⟨k, h⟩ ∧
        ∀ j, ∀ hj : j < k, cums.get ⟨j, hj.trans h⟩ ≤ 80 := by
  intro cums
  induction cums with
  | nil =>
    intro k h
    simp [first_over_80_aux] at h
  | cons c rest ih =>
    intro k h
    rw [first_over_80_aux] at h
    by_cases hc : 80 < c
    · rw [if_pos hc] at h
      obtain rfl : (0 : Nat) = k := Option.some.inj h
      exact ⟨Nat.succ_pos _, hc, fun j hj => absurd hj (Nat.not_lt_zero j)⟩
    · rw [if_neg hc] at h
      rcases Option.map_eq_some'.mp h with ⟨k', hk', rfl⟩
      obtain ⟨hlt, hover, hbelow⟩ := ih k' hk'
      refine ⟨Nat.succ_lt_succ hlt, hover, ?_⟩
      intro j hj
      cases j with
      | zero => exact le_of_not_lt hc
      | succ j' => exact hbelow j' (Nat.lt_of_succ_lt_succ hj)

lemma idx_to_aux (cums : List ℚ) (k : Nat)
    (hk : first_over_80_idx cums = (k : Int)) : first_over_80_aux cums = some k := by
  rw [first_over_80_idx] at hk
  cases haux : first_over_80_aux cums with
  | none =>
    rw [haux] at hk
    simp at hk
  | some i =>
    rw [haux] at hk
    simp at hk
    rw [hk]

lemma idx_80_100 : first_over_80_idx [(80 : ℚ), 100] = 1 := by
  have h80 : ¬((80 : ℚ) < 80) := lt_irrefl _
  have h100 : (80 : ℚ) < 100 := by norm_num
  simp [first_over_80_idx, first_over_80_aux, h80, h100]

lemma scenario_cums :
    (df_pareto exampleEntriesA).map (fun r => r.cumulativePercent) = [80, 100] := by
  rw [df_pareto_exampleA]
  rfl

lemma scenario_idx :
    first_over_80_idx ((df_pareto exampleEntriesA).map (fun r => r.cumulativePercent)) = 1 := by
  rw [scenario_cums]; exact idx_80_100

lemma colors_80_100 : bar_colors [(80 : ℚ), 100] = [highlight_color, highlight_color] := by
  simp only [bar_colors, idx_80_100]
  decide

lemma scenario_colors :
    bar_colors ((df_pareto exampleEntriesA).map (fun r => r.cumulativePercent)) =
      [highlight_color, highlight_color] := by
  rw [scenario_cums]; exact colors_80_100

/-- **C2.** When the line-100 scan stops at index `k`, row `k` is the
first whose cumulative percentage strictly exceeds 80: it exceeds 80 and
every earlier row is at most 80.  In particular, for scenario A's input
the ranked summary is Cracks (8, 80%) then Warping (2, 100%), the
boundary is `k = 1` (80 does not strictly exceed 80), and both bars are
highlighted as vital few. -/
theorem vital_few_boundary_and_scenarioA (cums : List ℚ) (k : Nat)
    (hk : first_over_80_idx cums = (k : Int)) :
    (∃ h : k < cums.length, 80 < cums.get ⟨k, h⟩ ∧
      ∀ j, ∀ hj : j < k, cums.get ⟨j, hj.trans h⟩ ≤ 80) ∧
    df_pareto exampleEntriesA = [⟨"Cracks", 8, 80⟩, ⟨"Warping", 2, 100⟩] ∧
    first_over_80_idx ((df_pareto exampleEntriesA).map (fun r => r.cumulativePercent)) = 1 ∧
    bar_colors ((df_pareto exampleEntriesA).map (fun r => r.cumulativePercent)) =
      [highlight_color, highlight_color] :=
  ⟨first_over_80_aux_spec cums k (idx_to_aux cums k hk),
    df_pareto_exampleA, scenario_idx, scenario_colors⟩

/-- **C2, witness.** The boundary property applied to the concrete
cumulative column `[80, 100]`, whose scan stops at index 1. -/
theorem vital_few_boundary_and_scenarioA_witness :
    (∃ h : 1 < ([(80 : ℚ), 100] : List ℚ).length,
      80 < ([(80 : ℚ), 100] : List ℚ).get ⟨1, h⟩ ∧
      ∀ j, ∀ hj : j < 1, ([(80 : ℚ), 100] : List ℚ).get ⟨j, hj.trans h⟩ ≤ 80) ∧
    df_pareto exampleEntriesA = [⟨"Cracks", 8, 80⟩, ⟨"Warping", 2, 100⟩] ∧
    first_over_80_idx ((df_pareto exampleEntriesA).map (fun r => r.cumulativePercent)) = 1 ∧
    bar_colors ((df_pareto exampleEntriesA).map (fun r => r.cumulativePercent)) =
      [highlight_color, highlight_color] :=
  vital_few_boundary_and_scenarioA [(80 : ℚ), 100] 1 (by exact_mod_cast idx_80_100)

lemma first_over_80_aux_none (cums : List ℚ) (hall : ∀ c ∈ cums, c ≤ 80) :
    first_over_80_aux cums = none := by
  induction cums with
  | nil => rfl
  | cons c rest ih =>
    have hc : ¬(80 < c) := not_lt.mpr (hall c (List.mem_cons_self _ _))
    rw [first_over_80_aux, if_neg hc,
      ih (fun x hx => hall x (List.mem_cons_of_mem _ hx))]
    rfl

/-- **C6.** When no cumulative percentage strictly exceeds 80, the scan
returns the `-1` sentinel and every bar is highlighted - the whole
sequence is marked vital few. -/
theorem all_vital_when_none_exceeds_80 (cums : List ℚ) (_hne : cums ≠ [])
    (hall : ∀ c ∈ cums, c ≤ 80) :
    first_over_80_idx cums = -1 ∧
    bar_colors cums = List.replicate cums.length highlight_color := by
  have hidx : first_over_80_idx cums = -1 := by
    unfold first_over_80_idx
    rw [first_over_80_aux_none cums hall]
  refine ⟨hidx, ?_⟩
  unfold bar_colors
  rw [if_pos hidx]

/-- **C6, witness.** A one-row summary at 50 percent: nothing exceeds 80
and the single bar is highlighted. -/
theorem all_vital_when_none_exceeds_80_witness :
    ([(50 : ℚ)] ≠ ([] : List ℚ)) ∧
    first_over_80_idx [(50 : ℚ)] = -1 ∧
    bar_colors [(50 : ℚ)] = List.replicate ([(50 : ℚ)] : List ℚ).length highlight_color := by
  have hall : ∀ c ∈ [(50 : ℚ)], c ≤ 80 := by
    intro c hc
    rw [List.mem_singleton.mp hc]
    norm_num
  exact ⟨by simp, all_vital_when_none_exceeds_80 [(50 : ℚ)] (by simp) hall⟩

/-! ### The top-N selector (C7) -/

/-- **C7.** The top-N selection of lines 165-167 is a plain prefix take:
it returns exactly `min 3 rowCount` names, namely the first
`min 3 rowCount` rows of the ranked frame in rank order.  Its definition
consults neither `first_over_80_idx` nor `bar_colors`, so the selection
is independent of the 80 percent vital-few boundary. -/
theorem top_n_is_prefix_take (rows : List ParetoRow) :
    (top_problem_names rows).length = min 3 rows.length ∧
    top_problem_names rows = (rows.map (fun r => r.problem)).take (min 3 rows.length) := by
  constructor
  · simp [top_problem_names, num_top_problems_to_analyze]
    omega
  · rw [top_problem_names, num_top_problems_to_analyze, List.map_take, Nat.min_comm]

/-! ### The empty-result branches (C8) -/

/-- With positive input counts, a non-empty `problem_data` always leaves
at least one group after the line-92 filter. -/
lemma df_pareto_sorted_ne_nil (l : List ProblemEntry)
    (hpos : ∀ e ∈ l, 0 < e.count) (hne : l ≠ []) : df_pareto_sorted l ≠ [] := by
  obtain ⟨e, he⟩ := List.exists_mem_of_ne_nil l hne
  have hmem : (e.problem, groupTotal l e.problem) ∈ df_pareto_grouped l :=
    List.mem_map_of_mem _ (List.mem_dedup.mpr (List.mem_map_of_mem _ he))
  have hpos2 : 0 < groupTotal l e.problem :=
    groupTotal_pos l hpos e.problem (List.mem_map_of_mem _ he)
  have hin : (e.problem, groupTotal l e.problem) ∈ df_pareto_sorted l := by
    rw [df_pareto_sorted]
    exact (List.mem_insertionSort countGE).mpr
      (List.mem_filter.mpr ⟨hmem, by simpa using hpos2⟩)
  exact List.ne_nil_of_mem hin

/-- **C8.** Over the program's input domain (the count widget forces
every stored count to be at least 1), the only way the grouped-and-
filtered frame can be empty is an empty `problem_data`; in that case the
run stops at the line-84 warning: no chart outcome is produced, and the
line-94 error branch is unreachable. -/
theorem empty_result_warns_and_renders_no_chart (l : List ProblemEntry)
    (hpos : ∀ e ∈ l, 0 < e.count) (hempty : df_pareto_sorted l = []) :
    analyzePareto l = ParetoOutcome.warning "Please enter at least one problem entry." ∧
    ∀ rows, analyzePareto l ≠ ParetoOutcome.chart rows := by
  have hnil : l = [] := by
    by_contra hne
    exact df_pareto_sorted_ne_nil l hpos hne hempty
  subst hnil
  exact ⟨rfl, fun rows h => ParetoOutcome.noConfusion h⟩

/-- **C8, witness.** The empty input: the filtered frame is empty and the
run warns without rendering a chart. -/
theorem empty_result_warns_and_renders_no_chart_witness :
    (∀ e ∈ ([] : List ProblemEntry), 0 < e.count) ∧
    df_pareto_sorted ([] : List ProblemEntry) = [] ∧
    (analyzePareto ([] : List ProblemEntry) =
      ParetoOutcome.warning "Please enter at least one problem entry." ∧
    ∀ rows, analyzePareto ([] : List ProblemEntry) ≠ ParetoOutcome.chart rows) := by
  refine ⟨fun e he => absurd he (List.not_mem_nil e), rfl, ?_⟩
  exact empty_result_warns_and_renders_no_chart [] (fun e he => absurd he (List.not_mem_nil e)) rfl

/-! ### The two mapping-lookup fallbacks (C9) -/

/-- **C9, counterexample.** The claim says every consultation of the
static mapping falls back to `["Unmapped/Other"]` for an unmapped name.
That is true of the heatmap path (line 131) but false of the AI-prompt
path (line 186), which falls back to `["Not specifically mapped"]`:
"Cracks" has no mapping entry, and the two sites return different
sentinels. -/
theorem mapping_fallbacks_differ :
    mapped_parts "Cracks" = ["Unmapped/Other"] ∧
    likely_machine_parts "Cracks" = ["Not specifically mapped"] ∧
    (["Not specifically mapped"] : List String) ≠ ["Unmapped/Other"] := by
  refine ⟨by decide, by decide, by decide⟩

/-- **C9, amended.** Both lookup sites return the mapping's ordered
machine-part list when the name has an entry; for a name with no entry
the heatmap path (line 131) returns exactly `["Unmapped/Other"]` while
the AI-prompt path (line 186) returns exactly
`["Not specifically mapped"]`. -/
theorem mapping_lookup_amended (name : String) :
    (default_problem_to_part_mapping.find? (fun p => p.1 == name) = none →
      mapped_parts name = ["Unmapped/Other"] ∧
      likely_machine_parts name = ["Not specifically mapped"]) ∧
    (∀ pr, default_problem_to_part_mapping.find? (fun p => p.1 == name) = some pr →
      mapped_parts name = pr.2 ∧ likely_machine_parts name = pr.2) := by
  constructor
  · intro h
    constructor
    · rw [mapped_parts, lookupParts, h]
    · rw [likely_machine_parts, lookupParts, h]
  · intro pr h
    constructor
    · rw [mapped_parts, lookupParts, h]
    · rw [likely_machine_parts, lookupParts, h]

/-- **C9, amended, witness.** The amended lookup contract applied to the
unmapped name "Cracks" and the mapped name "Contamination (black
specks)". -/
theorem mapping_lookup_amended_witness :
    (mapped_parts "Cracks" = ["Unmapped/Other"] ∧
      likely_machine_parts "Cracks" = ["Not specifically mapped"]) ∧
    (mapped_parts "Contamination (black specks)" = ["Feeding system"] ∧
      likely_machine_parts "Contamination (black specks)" = ["Feeding system"]) :=
  ⟨(mapping_lookup_amended "Cracks").1 (by decide),
    (mapping_lookup_amended "Contamination (black specks)").2
      ("Contamination (black specks)", ["Feeding system"]) (by decide)⟩

/-! ### The heatmap pivot (C10) -/

lemma count_eq_one_mem (xs : List String) (hnd : xs.Nodup) (a : String)
    (ha : a ∈ xs) : xs.count a = 1 := by
  induction xs with
  | nil => cases ha
  | cons b ys ih =>
    rw [List.count_cons]
    rcases List.mem_cons.mp ha with rfl | h
    · have hb : a ∉ ys := (List.nodup_cons.mp hnd).1
      rw [List.count_eq_zero.mpr hb]
      simp
    · have hba : ¬(b = a) := by
        rintro rfl
        exact (List.nodup_cons.mp hnd).1 h
      rw [ih (List.nodup_cons.mp hnd).2 h]
      simp [hba]

/-- Every value list of the static mapping is duplicate-free and lies
inside the heatmap column list. -/
lemma mapping_values_ok :
    ∀ pr ∈ default_problem_to_part_mapping,
      pr.2.Nodup ∧ ∀ x ∈ pr.2, x ∈ machine_parts_list_for_heatmap := by decide

lemma mapped_parts_nodup (p : String) : (mapped_parts p).Nodup := by
  rw [mapped_parts, lookupParts]
  cases h : default_problem_to_part_mapping.find? (fun pr => pr.1 == p) with
  | none => simp
  | some pr => exact (mapping_values_ok pr (List.mem_of_find?_eq_some h)).1

lemma mapped_parts_sub (p : String) :
    ∀ part ∈ mapped_parts p, part ∈ machine_parts_list_for_heatmap := by
  rw [mapped_parts, lookupParts]
  cases h : default_problem_to_part_mapping.find? (fun pr => pr.1 == p) with
  | none =>
    intro part hp
    rw [List.mem_singleton.mp hp]
    decide
  | some pr => exact (mapping_values_ok pr (List.mem_of_find?_eq_some h)).2

/-- The contribution of one raw entry's expanded block to one pivot cell:
the full count if the names match and the part occurs in the entry's
mapped-part list, zero otherwise. -/
lemma block_filter_sum (nm : String) (c : Nat) (p part : String) :
    ∀ ps : List String,
      (((ps.map (fun q => (nm, q, c))).filter
        (fun u => u.1 == p && u.2.1 == part)).map (fun u => u.2.2)).sum =
      if nm = p then ps.count part * c else 0 := by
  intro ps
  induction ps with
  | nil => simp
  | cons q qs ih =>
    by_cases hnm : nm = p
    · subst hnm
      by_cases hq : q = part
      · subst hq
        simp [List.filter_cons, List.count_cons, ih]
        ring
      · simp [List.filter_cons, List.count_cons, ih, hq]
    · simp [List.filter_cons, ih, hnm]

lemma heatmap_entries_cons (e : ProblemEntry) (t : List ProblemEntry) :
    heatmap_entries (e :: t) =
      ((mapped_parts e.problem).map (fun part => (e.problem, part, e.count))) ++
        heatmap_entries t := by
  rw [heatmap_entries, List.flatMap_cons]
  rfl

lemma heatmap_cell_def (df_raw : List ProblemEntry) (p part : String) :
    (((heatmap_entries df_raw).filter (fun t => t.1 == p && t.2.1 == part)).map
      (fun t => t.2.2)).sum = heatmap_cell df_raw p part := rfl

/-- Closed form of a pivot cell: the number of times `part` occurs in
`p`'s mapped-part list times `p`'s aggregated raw total.  The count is
never split across parts. -/
lemma heatmap_cell_eq (l : List ProblemEntry) (p part : String) :
    heatmap_cell l p part = (mapped_parts p).count part * groupTotal l p := by
  induction l with
  | nil => simp [heatmap_cell, heatmap_entries, groupTotal]
  | cons e t ih =>
    rw [heatmap_cell, heatmap_entries_cons, List.filter_append, List.map_append,
      List.sum_append, block_filter_sum, heatmap_cell_def, ih, groupTotal_cons]
    by_cases hnm : e.problem = p
    · subst hnm
      rw [if_pos rfl, if_pos rfl]
      ring
    · rw [if_neg hnm, if_neg hnm]
      ring

/-- Summing the multiplicities of a list `sub` over a duplicate-free
super-list recovers the length of `sub`. -/
lemma count_sum_over_columns (sub cols : List String) (hnd : cols.Nodup)
    (hsub : ∀ x ∈ sub, x ∈ cols) :
    (cols.map (fun part => sub.count part)).sum = sub.length := by
  induction sub with
  | nil => simp
  | cons a sub2 ih =>
    have ha : a ∈ cols := hsub a (List.mem_cons_self _ _)
    have hsub2 : ∀ x ∈ sub2, x ∈ cols := fun x hx => hsub x (List.mem_cons_of_mem _ hx)
    calc (cols.map (fun part => (a :: sub2).count part)).sum
        = (cols.map (fun part =>
            sub2.count part + if a == part then 1 else 0)).sum := by
          simp [List.count_cons]
      _ = (cols.map (fun part => sub2.count part)).sum +
            (cols.map (fun part => if a == part then 1 else 0)).sum :=
          List.sum_map_add
      _ = sub2.length + 1 := by
          rw [ih hsub2, sum_map_single cols hnd a ha _
            (fun n _ hna => by simp [Ne.symm hna])]
          simp
      _ = (a :: sub2).length := by simp

/-- **C10.** In the heatmap pivot each raw entry contributes its full
count to every machine part its problem maps to, so for a problem `p`
with aggregated raw total `T`: every cell `(p, part)` with `part` in
`p`'s mapped list equals `T`, and the pivot row for `p`, summed over the
reindexed column list, equals `m * T` where `m` is the number of mapped
parts. -/
theorem heatmap_full_count_per_mapped_part (l : List ProblemEntry) (p : String) :
    (∀ part ∈ mapped_parts p, heatmap_cell l p part = groupTotal l p) ∧
    heatmap_row_sum l p = (mapped_parts p).length * groupTotal l p := by
  constructor
  · intro part hpart
    rw [heatmap_cell_eq,
      count_eq_one_mem (mapped_parts p) (mapped_parts_nodup p) part hpart, one_mul]
  · rw [heatmap_row_sum]
    calc (machine_parts_list_for_heatmap.map (fun part => heatmap_cell l p part)).sum
        = (machine_parts_list_for_heatmap.map
            (fun part => (mapped_parts p).count part * groupTotal l p)).sum := by
          simp only [heatmap_cell_eq]
      _ = (machine_parts_list_for_heatmap.map
            (fun part => (mapped_parts p).count part)).sum * groupTotal l p :=
          List.sum_map_mul_right _ _ _
      _ = (mapped_parts p).length * groupTotal l p := by
          rw [count_sum_over_columns (mapped_parts p) machine_parts_list_for_heatmap
            (by decide) (mapped_parts_sub p)]

/-- **C10, witness.** One entry of "Die lines / flow marks" with count 4,
mapped to the single part "Die/mandrel": the cell holds the full count
and the row sum is `1 * 4`. -/
theorem heatmap_full_count_per_mapped_part_witness :
    heatmap_cell [⟨"Die lines / flow marks", 4, "N/A"⟩]
        "Die lines / flow marks" "Die/mandrel" =
      groupTotal [⟨"Die lines / flow marks", 4, "N/A"⟩] "Die lines / flow marks" ∧
    heatmap_row_sum [⟨"Die lines / flow marks", 4, "N/A"⟩] "Die lines / flow marks" =
      (mapped_parts "Die lines / flow marks").length *
        groupTotal [⟨"Die lines / flow marks", 4, "N/A"⟩] "Die lines / flow marks" :=
  ⟨(heatmap_full_count_per_mapped_part [⟨"Die lines / flow marks", 4, "N/A"⟩]
      "Die lines / flow marks").1 "Die/mandrel" (by decide),
    (heatmap_full_count_per_mapped_part [⟨"Die lines / flow marks", 4, "N/A"⟩]
      "Die lines / flow marks").2⟩
